import Mathlib

/-!
Verification of the orvrm route construction and feasibility engine.

The Rust sources (src/services/routing.rs and src/models) are shallowly embedded
below.  Coordinates ([f64; 2] in the source) are modelled as exact pairs of
integers: the engine only ever compares them for equality (deduplication by
string formatting, index lookup).  Oracle durations/distances (f64 in the
source, cast to integers before use) are modelled as integers; the greedy
score, a f64 combination `travel + 0.5 * wait`, is modelled in ℚ.  All time
fields are signed integer seconds, as in the source.  Wall-clock measurement
(`computing_time`) is outside the embedding and fixed to 0.
-/

namespace Orvrm

/-- Coordinate pair [longitude, latitude]; compared only for equality. -/
abbrev Loc := ℤ × ℤ

/-- models/job.rs `Job`. -/
structure Job where
  id : ℕ
  location : Loc
  service : ℕ
  delivery : Option (List ℕ)
  pickup : Option (List ℕ)
  time_windows : Option (List (ℤ × ℤ))
  skills : Option (List String)
  priority : Option ℕ
deriving DecidableEq

/-- models/vehicle.rs `RouteStep` (tagged union start/job/end; `stop` models the
`End` variant, which is a keyword in Lean). -/
inductive RouteStep where
  | start (service_after : Option ℤ) (location : Option Loc)
      (arrival_time : Option ℤ) (departure_time : Option ℤ)
  | job (id : ℕ) (location : Option Loc) (service : Option ℕ)
      (arrival_time : Option ℤ) (departure_time : Option ℤ)
  | stop (location : Option Loc) (arrival_time : Option ℤ) (departure_time : Option ℤ)
deriving DecidableEq

/-- models/vehicle.rs `Vehicle` (`endLoc` models the `end` field, a keyword in
Lean).  The u32 capacity entries are embedded in ℤ so that the absence of
subtraction underflow is expressible. -/
structure Vehicle where
  id : ℕ
  start : Loc
  endLoc : Loc
  capacity : List ℤ
  time_window : Option (ℤ × ℤ)
  steps : Option (List RouteStep)
  skills : Option (List String)
deriving DecidableEq

/-- models/vehicle.rs `VehicleRoute`. -/
structure VehicleRoute where
  vehicle_id : ℕ
  route : List ℕ
  steps : List RouteStep
  distance : ℕ
  duration : ℕ
  arrival_times : List ℤ
  departure_times : List ℤ
  load_profile : List (List ℤ)
  polyline : Option String
deriving DecidableEq

/-- models/request.rs `RoutingOptions`. -/
structure RoutingOptions where
  max_time : Option ℕ
  threads : Option ℕ
  explore_all : Option Bool
  geometry : Option Bool
deriving DecidableEq

/-- models/request.rs `RoutingRequest`. -/
structure RoutingRequest where
  vehicles : List Vehicle
  jobs : List Job
  routing_profile : Option String
  options : Option RoutingOptions
deriving DecidableEq

/-- models/response.rs `RoutingSummary` (cost is f64 in the source; under the
integer-seconds model it is an integer). -/
structure RoutingSummary where
  cost : ℤ
  distance : ℕ
  duration : ℕ
  routes : ℕ
  unassigned : ℕ
  computing_time : ℕ
deriving DecidableEq

/-- models/response.rs `RoutingResponse`. -/
structure RoutingResponse where
  summary : RoutingSummary
  routes : List VehicleRoute
  unassigned : List ℕ
  geometry : Option (List String)
deriving DecidableEq

/-- services/osrm.rs `OsrmRouteLeg` (inner steps are unused by the engine). -/
structure OsrmLeg where
  distance : ℕ
  duration : ℕ
deriving DecidableEq

/-- services/osrm.rs `OsrmRoute`. -/
structure OsrmRoute where
  distance : ℕ
  duration : ℕ
  geometry : Option String
  legs : List OsrmLeg
deriving DecidableEq

/-- services/osrm.rs `OsrmRouteResponse` (code/waypoints are unused by the engine). -/
structure OsrmRouteResponse where
  routes : List OsrmRoute
deriving DecidableEq

/-- services/osrm.rs `OsrmTableResponse`. -/
structure OsrmTableResponse where
  durations : List (List ℤ)
  distances : Option (List (List ℤ))
deriving DecidableEq

/-- The external distance/route oracle: responses as functions of profile,
waypoints and the geometry flag. -/
structure Oracle where
  route : Option String → List Loc → Bool → OsrmRouteResponse
  table : Option String → List Loc → OsrmTableResponse

/-- Capacity check of optimize_routes (routing.rs lines 480-493): the indexed
loop over the delivery vector fails at the first index `i` with
`i >= capacity.len() || amount > capacity[i]`, rendered as simultaneous
recursion on both lists. -/
def canDeliver : List ℤ → List ℕ → Bool
  | _, [] => true
  | [], _ :: _ => false
  | c :: cap, a :: dem => if (a : ℤ) > c then false else canDeliver cap dem

/-- Capacity deduction of optimize_routes (routing.rs lines 573-580): subtract
element-wise at indices within the capacity vector, ignore the rest.  The
subtraction is the plain integer one; the source performs it on u32 after a
passing `canDeliver`, which is what keeps it from wrapping. -/
def deductCapacity : List ℤ → List ℕ → List ℤ
  | cap, [] => cap
  | [], _ :: _ => []
  | c :: cap, a :: dem => (c - (a : ℤ)) :: deductCapacity cap dem

/-- Time-window scan of optimize_routes (routing.rs lines 513-526): first
window whose end is at or after arrival; returns (waiting_time, service_start). -/
def findWindow (arrival : ℤ) : List (ℤ × ℤ) → Option (ℤ × ℤ)
  | [] => none
  | w :: rest =>
    if arrival ≤ w.2 then
      some (if arrival < w.1 then (w.1 - arrival, w.1) else (0, arrival))
    else findWindow arrival rest

/-- Time-window evaluation of the greedy assigner (routing.rs lines 507-531):
an absent `time_windows` field skips the check entirely (feasible at arrival,
no wait); a present list is scanned and a miss makes the job infeasible. -/
def evalTimeWindows (arrival : ℤ) : Option (List (ℤ × ℤ)) → Option (ℤ × ℤ)
  | none => some (0, arrival)
  | some ws => findWindow arrival ws

/-- Time-window handling of the predefined-route path (routing.rs lines
281-294): same scan, but a miss leaves service at the raw arrival instead of
failing. -/
def predefinedServiceStart (arrival : ℤ) (tws : Option (List (ℤ × ℤ))) : ℤ :=
  match tws with
  | none => arrival
  | some ws =>
    match findWindow arrival ws with
    | some p => p.2
    | none => arrival

/-- Location list of optimize_routes (routing.rs lines 387-400): every vehicle
start, its end when distinct from the start, then every job location. -/
def vehicleLocations (v : Vehicle) : List Loc :=
  if v.start ≠ v.endLoc then [v.start, v.endLoc] else [v.start]

/-- Locations of a whole request, in the order the source pushes them. -/
def allLocations (req : RoutingRequest) : List Loc :=
  (req.vehicles.map vehicleLocations).flatten ++ req.jobs.map Job.location

/-- Deduplication keeping first occurrences (routing.rs lines 402-411; the
source keys a HashSet by the formatted coordinate string, i.e. by value). -/
def uniqueLocations (locs : List Loc) : List Loc :=
  locs.foldl (fun acc l => if l ∈ acc then acc else acc ++ [l]) []

/-- Index of a location in the deduplicated list (`position(...).unwrap()` in
the source; every location looked up is present by construction). -/
def locIndexOf (uniq : List Loc) (l : Loc) : ℕ :=
  uniq.findIdx (fun x => decide (x = l))

/-- Matrix lookup `durations[i][j]` (in the source an out-of-range index would
panic; it is unreachable for a well-formed table). -/
def tableDuration (m : List (List ℤ)) (i j : ℕ) : ℤ :=
  (m.getD i []).getD j 0

/-- HashMap built by collecting (job.id, job) pairs (routing.rs lines 104-105,
208-209): on duplicate ids the last entry wins. -/
def jobMapGet (jobs : List Job) (id : ℕ) : Option Job :=
  jobs.foldl (fun acc j => if j.id = id then some j else acc) none

/-- Linear search `jobs.iter().find(|j| j.id == id)` (first match). -/
def findJob (jobs : List Job) (id : ℕ) : Option Job :=
  jobs.find? (fun j => decide (j.id = id))

/-- Per-vehicle data of the greedy assigner that is fixed during its loop. -/
structure GreedyCtx where
  uniq : List Loc
  durations : List (List ℤ)
  endIdx : ℕ
  vehicleEndTime : Option ℤ

/-- Candidate evaluation of one job inside the greedy loop (routing.rs lines
475-554): skip if already assigned, capacity check, arrival via the duration
table, time-window evaluation, return-to-depot check, and the score
`travel + 0.5 * wait`.  Returns (score, arrival, departure) when feasible. -/
def candidateEval (ctx : GreedyCtx) (assigned : Finset ℕ) (currentIdx : ℕ)
    (currentTime : ℤ) (capacity : List ℤ) (job : Job) : Option (ℚ × ℤ × ℤ) :=
  if job.id ∈ assigned then none
  else
    let capOk := match job.delivery with
      | some dem => canDeliver capacity dem
      | none => true
    if capOk then
      let jobIdx := locIndexOf ctx.uniq job.location
      let travel := tableDuration ctx.durations currentIdx jobIdx
      let arrival := currentTime + travel
      match evalTimeWindows arrival job.time_windows with
      | none => none
      | some p =>
        let departure := p.2 + (job.service : ℤ)
        let depotOk := match ctx.vehicleEndTime with
          | some te => decide (departure + tableDuration ctx.durations jobIdx ctx.endIdx ≤ te)
          | none => true
        if depotOk then some ((travel : ℚ) + (p.1 : ℚ) * (1 / 2 : ℚ), arrival, departure)
        else none
    else none

/-- Best-so-far update (routing.rs lines 548-553): strictly smaller score wins,
ties keep the earlier job. -/
def betterCand (best : Option (Job × ℚ × ℤ × ℤ)) (job : Job) (c : ℚ × ℤ × ℤ) :
    Option (Job × ℚ × ℤ × ℤ) :=
  match best with
  | none => some (job, c)
  | some b => if c.1 < b.2.1 then some (job, c) else some b

/-- One round of candidate selection over all request jobs in list order. -/
def selectBest (ctx : GreedyCtx) (assigned : Finset ℕ) (currentIdx : ℕ)
    (currentTime : ℤ) (capacity : List ℤ) (jobs : List Job) :
    Option (Job × ℚ × ℤ × ℤ) :=
  jobs.foldl
    (fun best job =>
      match candidateEval ctx assigned currentIdx currentTime capacity job with
      | none => best
      | some c => betterCand best job c)
    none

/-- Mutable per-vehicle state of the greedy loop. -/
structure VehState where
  routeJobs : List ℕ
  currentIdx : ℕ
  currentTime : ℤ
  capacity : List ℤ
  arrivalTimes : List ℤ
  departureTimes : List ℤ
deriving DecidableEq

/-- Commit of the winning job (routing.rs lines 557-580). -/
def commitJob (ctx : GreedyCtx) (st : VehState) (job : Job)
    (arrival departure : ℤ) : VehState :=
  { routeJobs := st.routeJobs ++ [job.id]
    currentIdx := locIndexOf ctx.uniq job.location
    currentTime := departure
    capacity :=
      match job.delivery with
      | some dem => deductCapacity st.capacity dem
      | none => st.capacity
    arrivalTimes := st.arrivalTimes ++ [arrival]
    departureTimes := st.departureTimes ++ [departure] }

/-- The per-vehicle greedy loop (routing.rs lines 465-584): at most
`jobs.length` rounds, stopping at 10 committed jobs, at a fully assigned pool,
or when no candidate is feasible. -/
def greedyLoop (ctx : GreedyCtx) (jobs : List Job) :
    ℕ → VehState → Finset ℕ → VehState × Finset ℕ
  | 0, st, assigned => (st, assigned)
  | fuel + 1, st, assigned =>
    if 10 ≤ st.routeJobs.length ∨ jobs.length ≤ assigned.card then (st, assigned)
    else
      match selectBest ctx assigned st.currentIdx st.currentTime st.capacity jobs with
      | none => (st, assigned)
      | some (job, _, arrival, departure) =>
        greedyLoop ctx jobs fuel (commitJob ctx st job arrival departure)
          (insert job.id assigned)

/-- Waypoints of the final per-vehicle route call (routing.rs lines 591-599);
the source unwraps the job lookup, which cannot fail for committed ids. -/
def greedyCoords (v : Vehicle) (jobs : List Job) (routeJobs : List ℕ) : List Loc :=
  v.start :: (routeJobs.map (fun id => ((findJob jobs id).map Job.location).getD (0, 0))
    ++ [v.endLoc])

/-- Assembly of the greedy vehicle route (routing.rs lines 614-667) from the
loop state and the oracle route. -/
def mkGreedyRoute (v : Vehicle) (jobs : List Job) (st : VehState) (r : OsrmRoute) :
    VehicleRoute :=
  let finalLeg : ℤ := ((r.legs.getLast?).map (fun leg => (leg.duration : ℤ))).getD 0
  let finalArrival := st.currentTime + finalLeg
  let arrivals := st.arrivalTimes ++ [finalArrival]
  let departures := st.departureTimes ++ [finalArrival]
  let startStep := RouteStep.start (v.time_window.map Prod.fst) (some v.start)
    (some (arrivals.getD 0 0)) (some (departures.getD 0 0))
  let jobSteps := st.routeJobs.enum.map (fun p =>
    let j := findJob jobs p.2
    RouteStep.job p.2 (j.map Job.location) (j.map Job.service)
      (some (arrivals.getD (p.1 + 1) 0)) (some (departures.getD (p.1 + 1) 0)))
  let endStep := RouteStep.stop (some v.endLoc)
    (some (arrivals.getLastD 0)) (some (departures.getLastD 0))
  { vehicle_id := v.id
    route := st.routeJobs
    steps := startStep :: (jobSteps ++ [endStep])
    distance := r.distance
    duration := r.duration
    arrival_times := arrivals
    departure_times := departures
    load_profile := []
    polyline := r.geometry }

/-- Initial current_time of a greedy vehicle (routing.rs lines 444-449). -/
def greedyInitTime (v : Vehicle) : ℤ :=
  match v.time_window with
  | some tw => tw.1
  | none => 0

/-- Initial loop state of a greedy vehicle (routing.rs lines 451-460). -/
def greedyStart (uniq : List Loc) (v : Vehicle) : VehState :=
  ⟨[], locIndexOf uniq v.start, greedyInitTime v, v.capacity,
    [greedyInitTime v], [greedyInitTime v]⟩

/-- Fixed per-vehicle context of the greedy loop (routing.rs lines 431-463). -/
def greedyCtxOf (uniq : List Loc) (durations : List (List ℤ)) (v : Vehicle) : GreedyCtx :=
  ⟨uniq, durations, locIndexOf uniq v.endLoc, v.time_window.map Prod.snd⟩

/-- One vehicle of the greedy assigner (routing.rs lines 430-670): run the
loop, skip the vehicle if nothing was committed or the oracle reports no
route, otherwise assemble the route; the shared assigned set is threaded
through in both cases. -/
def optimizeVehicle (oracle : Oracle) (profile : Option String) (geometry : Bool)
    (jobs : List Job) (uniq : List Loc) (durations : List (List ℤ))
    (assigned : Finset ℕ) (v : Vehicle) : Option VehicleRoute × Finset ℕ :=
  let res := greedyLoop (greedyCtxOf uniq durations v) jobs jobs.length
    (greedyStart uniq v) assigned
  if res.1.routeJobs.isEmpty then (none, res.2)
  else
    match (oracle.route profile (greedyCoords v jobs res.1.routeJobs) geometry).routes with
    | [] => (none, res.2)
    | r :: _ => (some (mkGreedyRoute v jobs res.1 r), res.2)

/-- optimize_routes (routing.rs lines 375-673): deduplicated location table,
one table call, then the greedy pass vehicle by vehicle in list order. -/
def optimize_routes (oracle : Oracle) (req : RoutingRequest)
    (profile : Option String) (geometry : Bool) : List VehicleRoute :=
  let uniq := uniqueLocations (allLocations req)
  let durations := (oracle.table profile uniq).durations
  (req.vehicles.foldl
    (fun acc v =>
      match optimizeVehicle oracle profile geometry req.jobs uniq durations acc.2 v with
      | (some r, a) => (acc.1 ++ [r], a)
      | (none, a) => (acc.1, a))
    (([] : List VehicleRoute), (∅ : Finset ℕ))).1

/-- Job id carried by a `Job` step, if any. -/
def stepJobId : RouteStep → Option ℕ
  | RouteStep.job id _ _ _ _ => some id
  | _ => none

/-- Initial current_time of the predefined-route path (routing.rs lines
261-268): the source first matches on whether the FIRST step is a `Start`;
only when it is not does it fall back to the vehicle time window, so a `Start`
step without `service_after` leaves the time at zero. -/
def initialCurrentTime (steps : List RouteStep) (tw : Option (ℤ × ℤ)) : ℤ :=
  match steps.head? with
  | some (RouteStep.start sa _ _ _) =>
    match sa with
    | some t => t
    | none => 0
  | _ =>
    match tw with
    | some w => w.1
    | none => 0

/-- One job stop of the predefined timing loop (routing.rs lines 273-301):
advance by the leg duration, record the arrival, and when the job id resolves
advance through its (unenforced) time-window service start and service time.
State is (current_time, arrival_times, departure_times); the input pair is
(index, job id).  The source indexes `legs[i]` directly and would panic when
an unresolved job id desynchronised the waypoints; modelled with a default. -/
def expandStep (jobs : List Job) (legs : List OsrmLeg) :
    ℤ × List ℤ × List ℤ → ℕ × ℕ → ℤ × List ℤ × List ℤ
  | (t, arrs, deps), (i, job_id) =>
    let arrival := t + ((legs.getD i ⟨0, 0⟩).duration : ℤ)
    let t2 :=
      match jobMapGet jobs job_id with
      | some job => predefinedServiceStart arrival job.time_windows + (job.service : ℤ)
      | none => arrival
    (t2, arrs ++ [arrival], deps ++ [t2])

/-- Route expansion for one vehicle with predefined steps (routing.rs lines
211-368): job ids are taken verbatim from the steps, waypoints drop unresolved
ids, timing starts from `initialCurrentTime` (with arrival_times[0] always 0),
and no final arrival/departure entry is pushed for the End step. -/
def expandVehicle (oracle : Oracle) (profile : Option String) (geometry : Bool)
    (jobs : List Job) (v : Vehicle) : Option VehicleRoute :=
  match v.steps with
  | none => none
  | some steps =>
    let job_ids := steps.filterMap stepJobId
    if job_ids.isEmpty then none
    else
      let coords := v.start ::
        (job_ids.filterMap (fun id => (jobMapGet jobs id).map Job.location) ++ [v.endLoc])
      match (oracle.route profile coords geometry).routes with
      | [] => none
      | r :: _ =>
        let t1 := initialCurrentTime steps v.time_window
        let res := job_ids.enum.foldl (expandStep jobs r.legs) (t1, [(0 : ℤ)], [t1])
        let arrivals := res.2.1
        let departures := res.2.2
        let startServiceAfter :=
          match steps.head? with
          | some (RouteStep.start sa _ _ _) => sa
          | _ => none
        let startStep := RouteStep.start startServiceAfter (some v.start)
          (some (arrivals.getD 0 0)) (some (departures.getD 0 0))
        let jobSteps := job_ids.enum.map (fun p =>
          let j := jobMapGet jobs p.2
          RouteStep.job p.2 (j.map Job.location) (j.map Job.service)
            (some (arrivals.getD (p.1 + 1) 0)) (some (departures.getD (p.1 + 1) 0)))
        let endStep := RouteStep.stop (some v.endLoc)
          (some (arrivals.getLastD 0)) (some (departures.getLastD 0))
        some { vehicle_id := v.id
               route := job_ids
               steps := startStep :: (jobSteps ++ [endStep])
               distance := r.distance
               duration := r.duration
               arrival_times := arrivals
               departure_times := departures
               load_profile := []
               polyline := r.geometry }

/-- process_predefined_routes (routing.rs lines 199-372): vehicles without
steps, with no job steps, or with an empty oracle answer produce no route. -/
def process_predefined_routes (oracle : Oracle) (profile : Option String)
    (geometry : Bool) (req : RoutingRequest) : List VehicleRoute :=
  req.vehicles.filterMap (expandVehicle oracle profile geometry req.jobs)

/-- Branch test of process_request (routing.rs lines 82-85). -/
def hasPredefinedRoutes (req : RoutingRequest) : Bool :=
  req.vehicles.any (fun v =>
    match v.steps with
    | some s => !s.isEmpty
    | none => false)

/-- Set of job ids appearing in the produced routes (routing.rs lines 113-118). -/
def assignedOfRoutes (routes : List VehicleRoute) : Finset ℕ :=
  routes.foldl (fun s r => r.route.foldl (fun s2 id => insert id s2) s) ∅

/-- Post-hoc time-window violation count of one route (routing.rs lines
131-151): a (route, job-position) pair counts when the job resolves, carries a
`time_windows` field, and its recorded arrival (`arrival_times[i + 1]`) lies
in none of its windows. -/
def routeViolations (jobs : List Job) (r : VehicleRoute) : ℕ :=
  (r.route.enum.filter (fun p =>
    match jobMapGet jobs p.2 with
    | none => false
    | some job =>
      match job.time_windows with
      | none => false
      | some tws =>
        let arrival := r.arrival_times.getD (p.1 + 1) 0
        !(tws.any (fun w => decide (w.1 ≤ arrival) && decide (arrival ≤ w.2))))).length

/-- process_request (routing.rs lines 48-196): branch, compute unassigned jobs
in request order, accumulate distance/duration/violations over the routes in
one pass, and build the summary with `cost = duration + violations * 3600`. -/
def process_request (oracle : Oracle) (req : RoutingRequest) : RoutingResponse :=
  let geometry := ((req.options.bind RoutingOptions.geometry).getD false)
  let profile := req.routing_profile
  let routes :=
    if hasPredefinedRoutes req then process_predefined_routes oracle profile geometry req
    else optimize_routes oracle req profile geometry
  let assigned := assignedOfRoutes routes
  let unassigned := (req.jobs.filter (fun j => decide (j.id ∉ assigned))).map Job.id
  let totals := routes.foldl
    (fun acc r => (acc.1 + r.distance, acc.2.1 + r.duration, acc.2.2 + routeViolations req.jobs r))
    ((0 : ℕ), (0 : ℕ), (0 : ℕ))
  let summary : RoutingSummary :=
    { cost := (totals.2.1 : ℤ) + (totals.2.2 : ℤ) * 3600
      distance := totals.1
      duration := totals.2.1
      routes := routes.length
      unassigned := unassigned.length
      computing_time := 0 }
  let geom :=
    if geometry then
      let polylines := routes.filterMap VehicleRoute.polyline
      if polylines.isEmpty then none else some polylines
    else none
  { summary := summary, routes := routes, unassigned := unassigned, geometry := geom }

/-- Characterisation of the capacity loop: it accepts exactly when every
demand index is in range of the remaining vector and within capacity. -/
lemma canDeliver_iff (cap : List ℤ) (dem : List ℕ) :
    canDeliver cap dem = true ↔
      ∀ i, i < dem.length → i < cap.length ∧ (dem.getD i 0 : ℤ) ≤ cap.getD i 0 := by
  induction dem generalizing cap with
  | nil => simp [canDeliver]
  | cons a dem ih =>
    cases cap with
    | nil =>
      simp only [canDeliver, List.length_nil]
      constructor
      · intro h; cases h
      · intro h
        have h0 := (h 0 (by simp)).1
        omega
    | cons c cap =>
      simp only [canDeliver]
      by_cases hac : (a : ℤ) > c
      · simp only [if_pos hac]
        constructor
        · intro h; cases h
        · intro h
          have h0 := (h 0 (by simp)).2
          simp at h0
          omega
      · simp only [if_neg hac, ih]
        constructor
        · intro h i hi
          cases i with
          | zero => simpa using not_lt.mp hac
          | succ j =>
            have := h j (by simpa using hi)
            simpa using this
        · intro h i hi
          have := h (i + 1) (by simpa using hi)
          simpa using this

/-- Capacity rule exactly as the spec words it (used to refute C2): demand
dimensions beyond the remaining vector's length pass through. -/
def canServeSpec (remaining : List ℤ) (demand : List ℕ) : Prop :=
  ∀ i, i < demand.length →
    (remaining.length ≤ i ∨ (demand.getD i 0 : ℤ) ≤ remaining.getD i 0)

/-- C2 counterexample: with an empty remaining-capacity vector and demand [5],
the spec's rule accepts but the code's check `canDeliver` rejects, so the
claimed iff fails at this input. -/
theorem C2_counterexample :
    ¬ ((canDeliver ([] : List ℤ) [5] = true) ↔ canServeSpec [] [5]) := by
  intro h
  have h2 : canServeSpec [] [5] := by
    intro i _
    exact Or.inl (by simp)
  have h3 := h.mpr h2
  simp [canDeliver] at h3

/-- C2 (amended): the greedy capacity check accepts a job iff every index of
its delivery vector is strictly within the remaining-capacity vector's length
and the demand there fits; in particular demand dimensions beyond the
remaining vector are infeasible, and a vehicle with an empty capacity vector
only passes an empty delivery vector. -/
theorem C2_capacity_check (remaining : List ℤ) (demand : List ℕ) :
    (canDeliver remaining demand = true ↔
      ∀ i, i < demand.length →
        i < remaining.length ∧ (demand.getD i 0 : ℤ) ≤ remaining.getD i 0)
    ∧ (canDeliver [] demand = true ↔ demand = []) := by
  refine ⟨canDeliver_iff remaining demand, ?_⟩
  cases demand with
  | nil => simp [canDeliver]
  | cons a d => simp [canDeliver]

/-- The time-window scan returns the first window whose end is at or after the
arrival, mapped through the wait/service-start rule. -/
lemma findWindow_eq_find (arrival : ℤ) (ws : List (ℤ × ℤ)) :
    findWindow arrival ws
      = (ws.find? (fun w => decide (arrival ≤ w.2))).map
          (fun w => if arrival < w.1 then (w.1 - arrival, w.1) else (0, arrival)) := by
  induction ws with
  | nil => rfl
  | cons w rest ih =>
    by_cases h : arrival ≤ w.2
    · rw [List.find?_cons_of_pos _ (by simpa using h)]
      simp [findWindow, h]
    · rw [List.find?_cons_of_neg _ (by simpa using h)]
      simpa [findWindow, h] using ih

/-- C3 (confirmed): on a non-empty window list the greedy evaluation selects
the first window (in given order) whose end is at or after arrival; service
starts at the window start with wait = start - arrival when the arrival is
early, else at the arrival with zero wait; and when no window qualifies the
result is infeasible (`none`). -/
theorem C3_first_matching_window (arrival : ℤ) (ws : List (ℤ × ℤ)) (_hne : ws ≠ []) :
    evalTimeWindows arrival (some ws)
      = (ws.find? (fun w => decide (arrival ≤ w.2))).map
          (fun w => if arrival < w.1 then (w.1 - arrival, w.1) else (0, arrival)) :=
  findWindow_eq_find arrival ws

/-- C3 witness: the spec's own scenario, window [1000, 2000] and arrival 500,
evaluates to wait 500 and service start 1000. -/
theorem C3_witness :
    evalTimeWindows 500 (some [((1000 : ℤ), (2000 : ℤ))])
      = ([((1000 : ℤ), (2000 : ℤ))].find? (fun w => decide ((500 : ℤ) ≤ w.2))).map
          (fun w => if (500 : ℤ) < w.1 then (w.1 - 500, w.1) else (0, 500)) :=
  C3_first_matching_window 500 [((1000 : ℤ), (2000 : ℤ))] (by decide)

/-- C4 counterexample: at arrival 5 an explicitly present but empty
time-window list evaluates to infeasible, not to Feasible with service start 5
and zero wait as the claim states. -/
theorem C4_counterexample :
    evalTimeWindows 5 (some []) = none ∧ evalTimeWindows 5 (some []) ≠ some (0, 5) := by
  exact ⟨rfl, by decide⟩

/-- C4 (amended): a job with NO time_windows field is feasible at every
arrival with zero wait and service start = arrival, but a job whose
time-window list is present and empty is infeasible at every arrival. -/
theorem C4_absent_vs_empty_windows (arrival : ℤ) :
    evalTimeWindows arrival none = some (0, arrival)
    ∧ evalTimeWindows arrival (some []) = none :=
  ⟨rfl, rfl⟩

/-- Deduction never changes the length of the remaining-capacity vector. -/
lemma deductCapacity_length (cap : List ℤ) (dem : List ℕ) :
    (deductCapacity cap dem).length = cap.length := by
  induction cap generalizing dem with
  | nil => cases dem <;> simp [deductCapacity]
  | cons c cap ih => cases dem <;> simp [deductCapacity, ih]

/-- Deduction after a passing check keeps every dimension non-negative. -/
lemma deductCapacity_nonneg (cap : List ℤ) (dem : List ℕ)
    (h : canDeliver cap dem = true) (hc : ∀ x ∈ cap, 0 ≤ x) :
    ∀ x ∈ deductCapacity cap dem, 0 ≤ x := by
  induction cap generalizing dem with
  | nil => cases dem <;> simp [deductCapacity]
  | cons c cap ih =>
    cases dem with
    | nil => simpa [deductCapacity] using hc
    | cons a dem =>
      simp only [canDeliver] at h
      by_cases hac : (a : ℤ) > c
      · rw [if_pos hac] at h; cases h
      · rw [if_neg hac] at h
        intro x hx
        simp only [deductCapacity, List.mem_cons] at hx
        rcases hx with rfl | hx
        · omega
        · exact ih dem h (fun y hy => hc y (List.mem_cons_of_mem _ hy)) x hx

/-- A selected candidate passed the capacity check against the capacity it was
evaluated with. -/
lemma candidateEval_capOk (ctx : GreedyCtx) (A : Finset ℕ) (ci : ℕ) (ct : ℤ)
    (cap : List ℤ) (job : Job) (c : ℚ × ℤ × ℤ)
    (h : candidateEval ctx A ci ct cap job = some c) :
    match job.delivery with
    | some dem => canDeliver cap dem = true
    | none => True := by
  unfold candidateEval at h
  split at h
  · cases h
  · cases hd : job.delivery with
    | none => trivial
    | some dem =>
      rw [hd] at h
      by_cases hc : canDeliver cap dem
      · exact hc
      · simp [hc] at h

/-- A selected candidate was not already assigned. -/
lemma candidateEval_not_assigned (ctx : GreedyCtx) (A : Finset ℕ) (ci : ℕ) (ct : ℤ)
    (cap : List ℤ) (job : Job) (c : ℚ × ℤ × ℤ)
    (h : candidateEval ctx A ci ct cap job = some c) : job.id ∉ A := by
  unfold candidateEval at h
  split at h
  · cases h
  · assumption

/-- Fold step of `selectBest`, named so the accumulator induction can speak
about it. -/
def selectStep (ctx : GreedyCtx) (A : Finset ℕ) (ci : ℕ) (ct : ℤ) (cap : List ℤ)
    (best : Option (Job × ℚ × ℤ × ℤ)) (job : Job) : Option (Job × ℚ × ℤ × ℤ) :=
  match candidateEval ctx A ci ct cap job with
  | none => best
  | some c => betterCand best job c

/-- Restatement of `selectBest` through the named fold step. -/
lemma selectBest_eq_foldl (ctx : GreedyCtx) (A : Finset ℕ) (ci : ℕ) (ct : ℤ)
    (cap : List ℤ) (jobs : List Job) :
    selectBest ctx A ci ct cap jobs = jobs.foldl (selectStep ctx A ci ct cap) none := rfl

/-- A winner of the selection fold either came in through the accumulator or
is a member of the candidate list whose evaluation produced its data. -/
lemma selectStep_foldl_some (ctx : GreedyCtx) (A : Finset ℕ) (ci : ℕ) (ct : ℤ)
    (cap : List ℤ) (jobs : List Job) (acc : Option (Job × ℚ × ℤ × ℤ))
    (j : Job) (s : ℚ) (a d : ℤ)
    (h : jobs.foldl (selectStep ctx A ci ct cap) acc = some (j, s, a, d)) :
    acc = some (j, s, a, d)
      ∨ (j ∈ jobs ∧ candidateEval ctx A ci ct cap j = some (s, a, d)) := by
  induction jobs generalizing acc with
  | nil => exact Or.inl h
  | cons j' rest ih =>
    simp only [List.foldl_cons] at h
    rcases ih _ h with hstep | hrest
    · unfold selectStep at hstep
      cases hce : candidateEval ctx A ci ct cap j' with
      | none => rw [hce] at hstep; exact Or.inl hstep
      | some c =>
        rw [hce] at hstep
        cases acc with
        | none =>
          dsimp only at hstep
          have hp := Option.some.inj hstep
          have hj : j' = j := congrArg Prod.fst hp
          have hc : c = (s, a, d) := congrArg Prod.snd hp
          subst hj
          exact Or.inr ⟨List.mem_cons_self _ _, by rw [hce, hc]⟩
        | some b =>
          simp only [betterCand] at hstep
          by_cases hlt : c.1 < b.2.1
          · rw [if_pos hlt] at hstep
            have hp := Option.some.inj hstep
            have hj : j' = j := congrArg Prod.fst hp
            have hc : c = (s, a, d) := congrArg Prod.snd hp
            subst hj
            exact Or.inr ⟨List.mem_cons_self _ _, by rw [hce, hc]⟩
          · rw [if_neg hlt] at hstep
            exact Or.inl hstep
    · exact Or.inr ⟨List.mem_cons_of_mem _ hrest.1, hrest.2⟩

/-- The winner of a selection round is a request job whose evaluation returned
exactly the recorded score, arrival and departure. -/
lemma selectBest_some (ctx : GreedyCtx) (A : Finset ℕ) (ci : ℕ) (ct : ℤ)
    (cap : List ℤ) (jobs : List Job) (j : Job) (s : ℚ) (a d : ℤ)
    (h : selectBest ctx A ci ct cap jobs = some (j, s, a, d)) :
    j ∈ jobs ∧ candidateEval ctx A ci ct cap j = some (s, a, d) := by
  rw [selectBest_eq_foldl] at h
  rcases selectStep_foldl_some ctx A ci ct cap jobs none j s a d h with h0 | h1
  · cases h0
  · exact h1

/-- Committing the selection winner keeps the remaining capacity non-negative. -/
lemma commitJob_capacity_nonneg (ctx : GreedyCtx) (st : VehState) (job : Job)
    (arrival departure : ℤ) (hcap : ∀ x ∈ st.capacity, 0 ≤ x)
    (hok : match job.delivery with
           | some dem => canDeliver st.capacity dem = true
           | none => True) :
    ∀ x ∈ (commitJob ctx st job arrival departure).capacity, 0 ≤ x := by
  unfold commitJob
  cases hd : job.delivery with
  | none => simpa using hcap
  | some dem =>
    rw [hd] at hok
    simpa using deductCapacity_nonneg _ _ hok hcap

/-- The greedy loop keeps every remaining-capacity dimension non-negative. -/
lemma greedyLoop_capacity_nonneg (ctx : GreedyCtx) (jobs : List Job) :
    ∀ (fuel : ℕ) (st : VehState) (A : Finset ℕ), (∀ x ∈ st.capacity, 0 ≤ x) →
      ∀ x ∈ (greedyLoop ctx jobs fuel st A).1.capacity, 0 ≤ x := by
  intro fuel
  induction fuel with
  | zero => intro st A h; simpa [greedyLoop] using h
  | succ n ih =>
    intro st A h
    rw [greedyLoop]
    split
    · simpa using h
    · cases hsel : selectBest ctx A st.currentIdx st.currentTime st.capacity jobs with
      | none => simpa [hsel] using h
      | some best =>
        obtain ⟨job, s, arrival, departure⟩ := best
        simp only [hsel]
        apply ih
        exact commitJob_capacity_nonneg ctx st job arrival departure h
          (candidateEval_capOk ctx A st.currentIdx st.currentTime st.capacity job _
            (selectBest_some ctx A st.currentIdx st.currentTime st.capacity jobs
              job s arrival departure hsel).2)

/-- C9 (confirmed): after a passing capacity check the element-wise deduction
touches only indices within the remaining-capacity vector (the length is
unchanged) and never drives any dimension negative; consequently the greedy
loop, which only deducts after a passing check, keeps every remaining-capacity
dimension non-negative after every commit. -/
theorem C9_guarded_deduction (cap : List ℤ) (dem : List ℕ) (ctx : GreedyCtx)
    (jobs : List Job) (fuel : ℕ) (st : VehState) (assigned : Finset ℕ)
    (h : canDeliver cap dem = true) (hcap : ∀ x ∈ cap, 0 ≤ x)
    (hst : ∀ x ∈ st.capacity, 0 ≤ x) :
    ((deductCapacity cap dem).length = cap.length ∧ ∀ x ∈ deductCapacity cap dem, 0 ≤ x)
    ∧ ∀ x ∈ (greedyLoop ctx jobs fuel st assigned).1.capacity, 0 ≤ x :=
  ⟨⟨deductCapacity_length cap dem, deductCapacity_nonneg cap dem h hcap⟩,
    greedyLoop_capacity_nonneg ctx jobs fuel st assigned hst⟩

/-- C9 witness: concrete capacity [5], demand [3], and an empty greedy state. -/
theorem C9_witness :
    ((deductCapacity [5] [3]).length = ([(5 : ℤ)] : List ℤ).length
      ∧ ∀ x ∈ deductCapacity [5] [3], 0 ≤ x)
    ∧ ∀ x ∈ (greedyLoop ⟨[], [], 0, none⟩ [] 0 ⟨[], 0, 0, [], [], []⟩ ∅).1.capacity, 0 ≤ x :=
  C9_guarded_deduction [5] [3] ⟨[], [], 0, none⟩ [] 0 ⟨[], 0, 0, [], [], []⟩ ∅
    (by decide) (by decide) (by decide)

/-- The one-pass accumulation of distance, duration and violations over the
routes equals the three corresponding sums. -/
lemma totals_foldl (jobs : List Job) (routes : List VehicleRoute) (a b c : ℕ) :
    routes.foldl
        (fun acc r =>
          (acc.1 + r.distance, acc.2.1 + r.duration, acc.2.2 + routeViolations jobs r))
        (a, b, c)
      = (a + (routes.map VehicleRoute.distance).sum,
         b + (routes.map VehicleRoute.duration).sum,
         c + (routes.map (routeViolations jobs)).sum) := by
  induction routes generalizing a b c with
  | nil => simp
  | cons r rs ih =>
    simp only [List.foldl_cons, List.map_cons, List.sum_cons, ih, Prod.mk.injEq]
    refine ⟨by omega, by omega, by omega⟩

/-- C6 (confirmed): the summary's total distance and duration are the sums of
the produced routes' oracle-reported distance and duration, and the cost is
exactly total duration plus 3600 per time-window violation. -/
theorem C6_summary_totals (oracle : Oracle) (req : RoutingRequest) :
    (process_request oracle req).summary.distance
        = ((process_request oracle req).routes.map VehicleRoute.distance).sum
    ∧ (process_request oracle req).summary.duration
        = ((process_request oracle req).routes.map VehicleRoute.duration).sum
    ∧ (process_request oracle req).summary.cost
        = ((process_request oracle req).summary.duration : ℤ)
          + (((process_request oracle req).routes.map (routeViolations req.jobs)).sum : ℤ) * 3600 := by
  unfold process_request
  simp only [totals_foldl, Nat.zero_add]
  exact ⟨trivial, trivial, trivial⟩

/-- Master description of one greedy-loop run: the committed ids extend the
entry list; the assigned set grows by exactly those ids; they are distinct,
were unassigned on entry, and are ids of request jobs; and the two time
arrays grow in lock step with the committed ids. -/
lemma greedyLoop_spec (ctx : GreedyCtx) (jobs : List Job) :
    ∀ (fuel : ℕ) (st : VehState) (A : Finset ℕ),
      ∃ new : List ℕ,
        (greedyLoop ctx jobs fuel st A).1.routeJobs = st.routeJobs ++ new
        ∧ (greedyLoop ctx jobs fuel st A).2 = A ∪ new.toFinset
        ∧ new.Nodup
        ∧ (∀ x ∈ new, x ∉ A ∧ x ∈ jobs.map Job.id)
        ∧ (greedyLoop ctx jobs fuel st A).1.arrivalTimes.length
            = st.arrivalTimes.length + new.length
        ∧ (greedyLoop ctx jobs fuel st A).1.departureTimes.length
            = st.departureTimes.length + new.length := by
  intro fuel
  induction fuel with
  | zero =>
    intro st A
    exact ⟨[], by simp [greedyLoop], by simp [greedyLoop], by simp, by simp,
      by simp [greedyLoop], by simp [greedyLoop]⟩
  | succ n ih =>
    intro st A
    rw [greedyLoop]
    split
    · exact ⟨[], by simp, by simp, by simp, by simp, by simp, by simp⟩
    · cases hsel : selectBest ctx A st.currentIdx st.currentTime st.capacity jobs with
      | none =>
        simp only [hsel]
        exact ⟨[], by simp, by simp, by simp, by simp, by simp, by simp⟩
      | some best =>
        obtain ⟨job, s, arrival, departure⟩ := best
        simp only [hsel]
        obtain ⟨new2, h1, h2, h3, h4, h5, h6⟩ :=
          ih (commitJob ctx st job arrival departure) (insert job.id A)
        have hja := selectBest_some ctx A st.currentIdx st.currentTime st.capacity jobs
          job s arrival departure hsel
        have hnotA : job.id ∉ A :=
          candidateEval_not_assigned ctx A st.currentIdx st.currentTime st.capacity job _ hja.2
        refine ⟨job.id :: new2, ?_, ?_, ?_, ?_, ?_, ?_⟩
        · rw [h1]; simp [commitJob]
        · rw [h2]
          ext x
          simp only [Finset.mem_union, Finset.mem_insert, List.toFinset_cons, List.mem_toFinset]
          tauto
        · refine List.nodup_cons.mpr ⟨?_, h3⟩
          intro hmem
          exact (h4 _ hmem).1 (Finset.mem_insert_self _ _)
        · intro x hx
          rcases List.mem_cons.mp hx with rfl | hx2
          · exact ⟨hnotA, List.mem_map.mpr ⟨job, hja.1, rfl⟩⟩
          · obtain ⟨hxA, hxj⟩ := h4 x hx2
            exact ⟨fun hxA2 => hxA (Finset.mem_insert_of_mem hxA2), hxj⟩
        · rw [h5]; simp [commitJob]; omega
        · rw [h6]; simp [commitJob]; omega

/-- The loop never lets the committed list grow beyond ten entries. -/
lemma greedyLoop_length_le (ctx : GreedyCtx) (jobs : List Job) :
    ∀ (fuel : ℕ) (st : VehState) (A : Finset ℕ), st.routeJobs.length ≤ 10 →
      (greedyLoop ctx jobs fuel st A).1.routeJobs.length ≤ 10 := by
  intro fuel
  induction fuel with
  | zero => intro st A h; simpa [greedyLoop] using h
  | succ n ih =>
    intro st A h
    rw [greedyLoop]
    split
    · simpa using h
    · next hcond =>
      cases hsel : selectBest ctx A st.currentIdx st.currentTime st.capacity jobs with
      | none => simpa [hsel] using h
      | some best =>
        obtain ⟨job, s, arrival, departure⟩ := best
        simp only [hsel]
        apply ih
        have hlt : ¬ 10 ≤ st.routeJobs.length := fun hx => hcond (Or.inl hx)
        simp only [commitJob, List.length_append, List.length_cons, List.length_nil]
        omega

/-- The assigned set returned by `optimizeVehicle` is always the loop's. -/
lemma optimizeVehicle_snd (oracle : Oracle) (profile : Option String) (geometry : Bool)
    (jobs : List Job) (uniq : List Loc) (durations : List (List ℤ))
    (A : Finset ℕ) (v : Vehicle) :
    (optimizeVehicle oracle profile geometry jobs uniq durations A v).2
      = (greedyLoop (greedyCtxOf uniq durations v) jobs jobs.length (greedyStart uniq v) A).2 := by
  unfold optimizeVehicle
  dsimp only
  split
  · rfl
  · split <;> rfl

/-- A successful `optimizeVehicle` is `mkGreedyRoute` applied to the final
loop state and some oracle route, the loop state being non-empty. -/
lemma optimizeVehicle_some (oracle : Oracle) (profile : Option String) (geometry : Bool)
    (jobs : List Job) (uniq : List Loc) (durations : List (List ℤ))
    (A : Finset ℕ) (v : Vehicle) (rt : VehicleRoute) (A2 : Finset ℕ)
    (h : optimizeVehicle oracle profile geometry jobs uniq durations A v = (some rt, A2)) :
    ∃ r : OsrmRoute,
      rt = mkGreedyRoute v jobs
        (greedyLoop (greedyCtxOf uniq durations v) jobs jobs.length (greedyStart uniq v) A).1 r
      ∧ A2 = (greedyLoop (greedyCtxOf uniq durations v) jobs jobs.length (greedyStart uniq v) A).2
      ∧ (greedyLoop (greedyCtxOf uniq durations v) jobs jobs.length
          (greedyStart uniq v) A).1.routeJobs ≠ [] := by
  unfold optimizeVehicle at h
  dsimp only at h
  split at h
  · simp at h
  · next hne =>
    split at h
    · simp at h
    · next r rest hroutes =>
      have hp := Prod.mk.injEq _ _ _ _ ▸ h
      have h1 : some (mkGreedyRoute v jobs _ r) = some rt := congrArg Prod.fst h
      have h2 := congrArg Prod.snd h
      refine ⟨r, (Option.some.inj h1).symm, h2.symm, ?_⟩
      intro hnil
      exact hne (by simp [hnil])

/-- Projections of the assembled greedy route. -/
lemma mkGreedyRoute_proj (v : Vehicle) (jobs : List Job) (st : VehState) (r : OsrmRoute) :
    (mkGreedyRoute v jobs st r).route = st.routeJobs
    ∧ (mkGreedyRoute v jobs st r).arrival_times.length = st.arrivalTimes.length + 1
    ∧ (mkGreedyRoute v jobs st r).departure_times.length = st.departureTimes.length + 1
    ∧ (mkGreedyRoute v jobs st r).steps.length = st.routeJobs.length + 2 := by
  refine ⟨rfl, ?_, ?_, ?_⟩ <;>
    simp [mkGreedyRoute, List.length_append, List.length_cons, List.enum_length]

/-- C8 (confirmed): a vehicle route produced by the greedy assigner commits at
most 10 jobs in its single pass, and no more jobs than were unassigned when
that vehicle's loop started. -/
theorem C8_commit_bounds (oracle : Oracle) (profile : Option String) (geometry : Bool)
    (jobs : List Job) (uniq : List Loc) (durations : List (List ℤ))
    (assigned : Finset ℕ) (v : Vehicle) (rt : VehicleRoute) (A2 : Finset ℕ)
    (h : optimizeVehicle oracle profile geometry jobs uniq durations assigned v = (some rt, A2)) :
    rt.route.length ≤ 10
    ∧ rt.route.length ≤ (jobs.filter (fun j => decide (j.id ∉ assigned))).length := by
  obtain ⟨r, hrt, _, _⟩ :=
    optimizeVehicle_some oracle profile geometry jobs uniq durations assigned v rt A2 h
  have hroute : rt.route
      = (greedyLoop (greedyCtxOf uniq durations v) jobs jobs.length
          (greedyStart uniq v) assigned).1.routeJobs := by
    rw [hrt]
    exact (mkGreedyRoute_proj v jobs _ r).1
  constructor
  · rw [hroute]
    exact greedyLoop_length_le _ _ _ _ _ (by simp [greedyStart])
  · rw [hroute]
    obtain ⟨new, g1, _, g3, g4, _, _⟩ := greedyLoop_spec (greedyCtxOf uniq durations v) jobs
      jobs.length (greedyStart uniq v) assigned
    rw [g1]
    have hstart : (greedyStart uniq v).routeJobs = [] := rfl
    rw [hstart, List.nil_append]
    have hsub : new.toFinset ⊆ ((jobs.filter (fun j => decide (j.id ∉ assigned))).map Job.id).toFinset := by
      intro x hx
      rw [List.mem_toFinset] at hx ⊢
      obtain ⟨hxA, hxj⟩ := g4 x hx
      obtain ⟨j, hjmem, rfl⟩ := List.mem_map.mp hxj
      exact List.mem_map.mpr ⟨j, List.mem_filter.mpr ⟨hjmem, by simpa using hxA⟩, rfl⟩
    calc new.length = new.toFinset.card := (List.toFinset_card_of_nodup g3).symm
      _ ≤ ((jobs.filter (fun j => decide (j.id ∉ assigned))).map Job.id).toFinset.card :=
          Finset.card_le_card hsub
      _ ≤ ((jobs.filter (fun j => decide (j.id ∉ assigned))).map Job.id).length :=
          List.toFinset_card_le _
      _ = (jobs.filter (fun j => decide (j.id ∉ assigned))).length := List.length_map _ _

/-- Concrete inputs exercising a successful greedy vehicle for the C8 witness. -/
def C8oracle : Oracle :=
  ⟨fun _ _ _ => ⟨[⟨100, 200, none, [⟨1, 1⟩, ⟨1, 1⟩]⟩]⟩, fun _ _ => ⟨[[0]], none⟩⟩

/-- Concrete job for the C8 witness. -/
def C8job : Job := ⟨1, (5, 5), 0, none, none, none, none, none⟩

/-- Concrete vehicle for the C8 witness. -/
def C8veh : Vehicle := ⟨7, (0, 0), (1, 1), [], none, none, none⟩

/-- Placeholder route used only to read an optional result off. -/
def emptyRoute : VehicleRoute := ⟨0, [], [], 0, 0, [], [], [], none⟩

/-- Result of the concrete C8 greedy run. -/
def C8res : Option VehicleRoute × Finset ℕ :=
  optimizeVehicle C8oracle none false [C8job] [(0, 0), (1, 1), (5, 5)]
    [[0, 0, 0], [0, 0, 0], [0, 0, 0]] ∅ C8veh

/-- C8 witness: the bounds hold on a concrete one-job request where the greedy
vehicle commits the job. -/
theorem C8_witness :
    (C8res.1.getD emptyRoute).route.length ≤ 10
    ∧ (C8res.1.getD emptyRoute).route.length
        ≤ ([C8job].filter (fun j => decide (j.id ∉ (∅ : Finset ℕ)))).length :=
  C8_commit_bounds C8oracle none false [C8job] [(0, 0), (1, 1), (5, 5)]
    [[0, 0, 0], [0, 0, 0], [0, 0, 0]] ∅ C8veh (C8res.1.getD emptyRoute) C8res.2 (by decide)

/-- One timing step appends exactly one arrival and one departure. -/
lemma expandStep_snd (jobs : List Job) (legs : List OsrmLeg)
    (s : ℤ × List ℤ × List ℤ) (p : ℕ × ℕ) :
    ∃ x y, (expandStep jobs legs s p).2.1 = s.2.1 ++ [x]
      ∧ (expandStep jobs legs s p).2.2 = s.2.2 ++ [y] := by
  obtain ⟨t, arrs, deps⟩ := s
  obtain ⟨i, id⟩ := p
  exact ⟨_, _, rfl, rfl⟩

/-- The timing fold appends one arrival and one departure per processed pair. -/
lemma expandStep_foldl (jobs : List Job) (legs : List OsrmLeg) :
    ∀ (l : List (ℕ × ℕ)) (s : ℤ × List ℤ × List ℤ),
      ∃ t2 as2 ds2,
        l.foldl (expandStep jobs legs) s = (t2, s.2.1 ++ as2, s.2.2 ++ ds2)
        ∧ as2.length = l.length ∧ ds2.length = l.length := by
  intro l
  induction l with
  | nil => intro s; exact ⟨s.1, [], [], by simp, rfl, rfl⟩
  | cons p rest ih =>
    intro s
    simp only [List.foldl_cons]
    obtain ⟨x, y, hx, hy⟩ := expandStep_snd jobs legs s p
    obtain ⟨t2, as2, ds2, heq, h1, h2⟩ := ih (expandStep jobs legs s p)
    refine ⟨t2, x :: as2, y :: ds2, ?_, by simp [h1], by simp [h2]⟩
    rw [heq, hx, hy]
    simp

/-- Shape of a route produced by the route expander: its timing arrays carry
one entry per job plus the start entry (and nothing for the End step), its
step list carries start and end around the job steps, and timing begins at
`initialCurrentTime`. -/
lemma expandVehicle_shape (oracle : Oracle) (profile : Option String) (geometry : Bool)
    (jobs : List Job) (v : Vehicle) (rt : VehicleRoute)
    (h : expandVehicle oracle profile geometry jobs v = some rt) :
    ∃ steps, v.steps = some steps
      ∧ rt.route = steps.filterMap stepJobId
      ∧ rt.arrival_times.length = (steps.filterMap stepJobId).length + 1
      ∧ rt.departure_times.length = (steps.filterMap stepJobId).length + 1
      ∧ rt.steps.length = (steps.filterMap stepJobId).length + 2
      ∧ rt.departure_times.head? = some (initialCurrentTime steps v.time_window) := by
  unfold expandVehicle at h
  cases hs : v.steps with
  | none => rw [hs] at h; cases h
  | some steps =>
    rw [hs] at h
    dsimp only at h
    split at h
    · cases h
    · split at h
      · cases h
      · next r rest hroutes =>
        obtain ⟨t2, as2, ds2, heq, h1, h2⟩ := expandStep_foldl jobs r.legs
          ((steps.filterMap stepJobId).enum)
          (initialCurrentTime steps v.time_window, [(0 : ℤ)],
            [initialCurrentTime steps v.time_window])
        rw [heq] at h
        have hrt := (Option.some.inj h).symm
        subst hrt
        refine ⟨steps, rfl, rfl, ?_, ?_, ?_, ?_⟩
        · simp [h1, List.enum_length]
        · simp [h2, List.enum_length]
        · simp [List.enum_length]
        · simp

/-- Any route in the greedy fold's output either was in the accumulator or is
a successful `optimizeVehicle` result for some vehicle of the list. -/
lemma optimize_fold_mem (oracle : Oracle) (profile : Option String) (geometry : Bool)
    (jobs : List Job) (uniq : List Loc) (durations : List (List ℤ)) :
    ∀ (vs : List Vehicle) (acc : List VehicleRoute × Finset ℕ) (r : VehicleRoute),
      r ∈ (vs.foldl
          (fun acc v =>
            match optimizeVehicle oracle profile geometry jobs uniq durations acc.2 v with
            | (some rt, a) => (acc.1 ++ [rt], a)
            | (none, a) => (acc.1, a)) acc).1 →
      r ∈ acc.1
        ∨ ∃ v A A2, v ∈ vs
            ∧ optimizeVehicle oracle profile geometry jobs uniq durations A v = (some r, A2) := by
  intro vs
  induction vs with
  | nil => intro acc r h; exact Or.inl h
  | cons v rest ih =>
    intro acc r h
    simp only [List.foldl_cons] at h
    rcases ih _ r h with hacc | hrest
    · cases hov : optimizeVehicle oracle profile geometry jobs uniq durations acc.2 v with
      | mk o a =>
        cases o with
        | none =>
          rw [hov] at hacc
          exact Or.inl hacc
        | some rt =>
          rw [hov] at hacc
          dsimp only at hacc
          rcases List.mem_append.mp hacc with h1 | h2
          · exact Or.inl h1
          · have hr : r = rt := by simpa using h2
            exact Or.inr ⟨v, acc.2, a, List.mem_cons_self _ _, by rw [hov, hr]⟩
    · obtain ⟨v2, A, A2, hv2, hov⟩ := hrest
      exact Or.inr ⟨v2, A, A2, List.mem_cons_of_mem _ hv2, hov⟩

/-- Concrete oracle for the C5 counterexample. -/
def C5oracle : Oracle :=
  ⟨fun _ _ _ => ⟨[⟨10, 20, none, [⟨1, 1⟩, ⟨1, 1⟩]⟩]⟩, fun _ _ => ⟨[[0]], none⟩⟩

/-- Concrete predefined-route request for the C5 counterexample: one vehicle
whose steps name the single job. -/
def C5req : RoutingRequest :=
  ⟨[⟨0, (0, 0), (1, 1), [], none, some [RouteStep.job 1 none none none none], none⟩],
    [⟨1, (2, 2), 0, none, none, none, none, none⟩], none, none⟩

/-- C5 counterexample: on a predefined-route request the produced route has 3
steps but only 2 arrival and 2 departure entries, so the claimed equality of
lengths fails. -/
theorem C5_counterexample :
    ¬ (∀ r ∈ (process_request C5oracle C5req).routes,
        r.arrival_times.length = r.steps.length
        ∧ r.departure_times.length = r.steps.length) := by
  decide

/-- C5 (amended): greedy-assigner routes satisfy
`len(arrival_times) = len(departure_times) = len(steps)`, but route-expander
routes carry one timing entry per job plus the start only, so there
`len(arrival_times) = len(departure_times) = len(steps) - 1`. -/
theorem C5_step_timing_lengths (oracle : Oracle) (profile : Option String)
    (geometry : Bool) (req : RoutingRequest) (r : VehicleRoute) :
    (r ∈ process_predefined_routes oracle profile geometry req →
      r.arrival_times.length = r.departure_times.length
      ∧ r.steps.length = r.arrival_times.length + 1)
    ∧ (r ∈ optimize_routes oracle req profile geometry →
      r.arrival_times.length = r.departure_times.length
      ∧ r.steps.length = r.arrival_times.length) := by
  constructor
  · intro h
    obtain ⟨v, hv, hev⟩ := List.mem_filterMap.mp h
    obtain ⟨steps, _, _, ha, hd, hs, _⟩ :=
      expandVehicle_shape oracle profile geometry req.jobs v r hev
    omega
  · intro h
    unfold optimize_routes at h
    dsimp only at h
    rcases optimize_fold_mem oracle profile geometry req.jobs
        (uniqueLocations (allLocations req))
        ((oracle.table profile (uniqueLocations (allLocations req))).durations)
        req.vehicles ([], ∅) r h with hacc | ⟨v, A, A2, hv, hov⟩
    · simp at hacc
    · obtain ⟨osr, hrt, _, _⟩ := optimizeVehicle_some _ _ _ _ _ _ _ _ _ _ hov
      obtain ⟨new, g1, _, _, _, g5, g6⟩ := greedyLoop_spec
        (greedyCtxOf (uniqueLocations (allLocations req))
          ((oracle.table profile (uniqueLocations (allLocations req))).durations) v)
        req.jobs req.jobs.length
        (greedyStart (uniqueLocations (allLocations req)) v) A
      obtain ⟨hr1, hr2, hr3, hr4⟩ := mkGreedyRoute_proj v req.jobs _ osr
      have e1 : (greedyLoop
          (greedyCtxOf (uniqueLocations (allLocations req))
            ((oracle.table profile (uniqueLocations (allLocations req))).durations) v)
          req.jobs req.jobs.length
          (greedyStart (uniqueLocations (allLocations req)) v) A).1.arrivalTimes.length
          = 1 + new.length := by
        simpa [greedyStart] using g5
      have e2 : (greedyLoop
          (greedyCtxOf (uniqueLocations (allLocations req))
            ((oracle.table profile (uniqueLocations (allLocations req))).durations) v)
          req.jobs req.jobs.length
          (greedyStart (uniqueLocations (allLocations req)) v) A).1.departureTimes.length
          = 1 + new.length := by
        simpa [greedyStart] using g6
      have e3 : (greedyLoop
          (greedyCtxOf (uniqueLocations (allLocations req))
            ((oracle.table profile (uniqueLocations (allLocations req))).durations) v)
          req.jobs req.jobs.length
          (greedyStart (uniqueLocations (allLocations req)) v) A).1.routeJobs.length
          = new.length := by
        rw [g1]
        simp [greedyStart]
      rw [hrt]
      constructor
      · rw [hr2, hr3]
        omega
      · rw [hr4, hr2]
        omega

/-- Route produced by the concrete C5 expansion. -/
def C5route : VehicleRoute :=
  (process_predefined_routes C5oracle none false C5req).getD 0 emptyRoute

/-- C5 witness: the amended length relation holds on the concrete expanded
route (2 timing entries, 3 steps). -/
theorem C5_witness :
    C5route.arrival_times.length = C5route.departure_times.length
    ∧ C5route.steps.length = C5route.arrival_times.length + 1 :=
  (C5_step_timing_lengths C5oracle none false C5req C5route).1 (by decide)

/-- Initial-timing rule written out by cases, as the amended C7 claim words
it: a Start step carrying service_after uses it; a Start step without one
yields zero even when the vehicle has a time window; otherwise the vehicle
time-window start when present; otherwise zero. -/
def initTimeAmended (steps : List RouteStep) (tw : Option (ℤ × ℤ)) : ℤ :=
  match steps.head?, tw with
  | some (RouteStep.start (some t) _ _ _), _ => t
  | some (RouteStep.start none _ _ _), _ => 0
  | _, some w => w.1
  | _, none => 0

/-- The source's initial-time computation matches the case-split rule. -/
lemma initialCurrentTime_cases (steps : List RouteStep) (tw : Option (ℤ × ℤ)) :
    initialCurrentTime steps tw = initTimeAmended steps tw := by
  unfold initialCurrentTime initTimeAmended
  cases h : steps.head? with
  | none => cases tw <;> rfl
  | some s =>
    cases s with
    | start sa l a d => cases sa <;> cases tw <;> rfl
    | job id l sv a d => cases tw <;> rfl
    | stop l a d => cases tw <;> rfl

/-- Concrete oracle for the C7 counterexample. -/
def C7oracle : Oracle :=
  ⟨fun _ _ _ => ⟨[⟨10, 20, none, [⟨1, 1⟩, ⟨1, 1⟩]⟩]⟩, fun _ _ => ⟨[[0]], none⟩⟩

/-- Concrete job list for the C7 counterexample. -/
def C7jobs : List Job := [⟨1, (2, 2), 0, none, none, none, none, none⟩]

/-- Vehicle with a time window [100, 200] whose predefined steps begin with a
Start step that carries no service_after. -/
def C7veh : Vehicle :=
  ⟨0, (0, 0), (1, 1), [], some (100, 200),
    some [RouteStep.start none none none none, RouteStep.job 1 none none none none], none⟩

/-- C7 counterexample: with a Start step carrying no service_after and a
vehicle time window starting at 100, the expanded route's initial departure is
0, not the claimed time-window start 100. -/
theorem C7_counterexample :
    (expandVehicle C7oracle none false C7jobs C7veh).map (fun r => r.departure_times.head?)
      = some (some 0)
    ∧ (expandVehicle C7oracle none false C7jobs C7veh).map (fun r => r.departure_times.head?)
      ≠ some (some 100) := by
  exact ⟨by decide, by decide⟩

/-- C7 (amended): the expander's initial timing (the first departure entry of
the produced route) equals the explicit service_after when the first input
step is a Start carrying one; it is zero when the first input step is a Start
without service_after, even if the vehicle has a time window; otherwise it is
the vehicle's time-window start when present, else zero. -/
theorem C7_initial_time (oracle : Oracle) (profile : Option String) (geometry : Bool)
    (jobs : List Job) (v : Vehicle) (steps : List RouteStep) (rt : VehicleRoute)
    (hs : v.steps = some steps)
    (h : expandVehicle oracle profile geometry jobs v = some rt) :
    rt.departure_times.head? = some (initTimeAmended steps v.time_window) := by
  obtain ⟨steps2, hs2, _, _, _, _, hhead⟩ :=
    expandVehicle_shape oracle profile geometry jobs v rt h
  rw [hs] at hs2
  obtain rfl := Option.some.inj hs2
  rw [hhead, initialCurrentTime_cases]

/-- C7 witness: the amended rule evaluated on the concrete C7 vehicle. -/
theorem C7_witness :
    ((expandVehicle C7oracle none false C7jobs C7veh).getD emptyRoute).departure_times.head?
      = some (initTimeAmended
          [RouteStep.start none none none none, RouteStep.job 1 none none none none]
          C7veh.time_window) :=
  C7_initial_time C7oracle none false C7jobs C7veh
    [RouteStep.start none none none none, RouteStep.job 1 none none none none]
    ((expandVehicle C7oracle none false C7jobs C7veh).getD emptyRoute)
    (by decide) (by decide)

/-- Membership after folding a list of ids into a set. -/
lemma mem_foldl_insert (l : List ℕ) :
    ∀ (s : Finset ℕ) (x : ℕ), x ∈ l.foldl (fun s2 id => insert id s2) s ↔ x ∈ s ∨ x ∈ l := by
  induction l with
  | nil => intro s x; simp
  | cons a l ih =>
    intro s x
    simp only [List.foldl_cons, ih, Finset.mem_insert, List.mem_cons]
    tauto

/-- Membership in the assigned-ids set of a route list. -/
lemma assignedOfRoutes_mem (routes : List VehicleRoute) (x : ℕ) :
    x ∈ assignedOfRoutes routes ↔ ∃ r ∈ routes, x ∈ r.route := by
  have haux : ∀ (rs : List VehicleRoute) (s : Finset ℕ),
      x ∈ rs.foldl (fun s r => r.route.foldl (fun s2 id => insert id s2) s) s
        ↔ x ∈ s ∨ ∃ r ∈ rs, x ∈ r.route := by
    intro rs
    induction rs with
    | nil => intro s; simp
    | cons r rs ih =>
      intro s
      simp only [List.foldl_cons, ih, mem_foldl_insert, List.mem_cons]
      constructor
      · rintro ((hs | hr) | ⟨r2, hr2, hx⟩)
        · exact Or.inl hs
        · exact Or.inr ⟨r, Or.inl rfl, hr⟩
        · exact Or.inr ⟨r2, Or.inr hr2, hx⟩
      · rintro (hs | ⟨r2, (rfl | hr2), hx⟩)
        · exact Or.inl (Or.inl hs)
        · exact Or.inl (Or.inr hx)
        · exact Or.inr ⟨r2, hr2, hx⟩
  simpa using haux routes ∅

/-- Per-vehicle facts feeding the fold invariant: the assigned set only grows,
and a produced route's ids were unassigned on entry, are request job ids, and
are assigned on exit. -/
lemma optimizeVehicle_route_spec (oracle : Oracle) (profile : Option String)
    (geometry : Bool) (jobs : List Job) (uniq : List Loc) (durations : List (List ℤ))
    (A : Finset ℕ) (v : Vehicle) :
    A ⊆ (optimizeVehicle oracle profile geometry jobs uniq durations A v).2
    ∧ ∀ rt, (optimizeVehicle oracle profile geometry jobs uniq durations A v).1 = some rt →
        ∀ x ∈ rt.route,
          x ∉ A ∧ x ∈ jobs.map Job.id
            ∧ x ∈ (optimizeVehicle oracle profile geometry jobs uniq durations A v).2 := by
  obtain ⟨new, g1, g2, g3, g4, g5, g6⟩ := greedyLoop_spec (greedyCtxOf uniq durations v) jobs
    jobs.length (greedyStart uniq v) A
  have hsnd := optimizeVehicle_snd oracle profile geometry jobs uniq durations A v
  constructor
  · rw [hsnd, g2]
    exact Finset.subset_union_left
  · intro rt hrt x hx
    have hpair : optimizeVehicle oracle profile geometry jobs uniq durations A v
        = (some rt, (optimizeVehicle oracle profile geometry jobs uniq durations A v).2) := by
      exact Prod.ext hrt rfl
    obtain ⟨r, hmk, _, _⟩ := optimizeVehicle_some oracle profile geometry jobs uniq durations
      A v rt _ hpair
    have hroute : rt.route = new := by
      rw [hmk, (mkGreedyRoute_proj v jobs _ r).1, g1]
      simp [greedyStart]
    rw [hroute] at hx
    obtain ⟨hxA, hxj⟩ := g4 x hx
    refine ⟨hxA, hxj, ?_⟩
    rw [hsnd, g2]
    exact Finset.mem_union_right _ (List.mem_toFinset.mpr hx)

/-- Fold invariant of the greedy pass: routes stay pairwise disjoint, their
ids are in the threaded assigned set, and their ids are request job ids. -/
lemma optimize_fold_invariant (oracle : Oracle) (profile : Option String) (geometry : Bool)
    (jobs : List Job) (uniq : List Loc) (durations : List (List ℤ)) :
    ∀ (vs : List Vehicle) (acc : List VehicleRoute × Finset ℕ),
      List.Pairwise (fun a b => ∀ x ∈ a.route, x ∉ b.route) acc.1 →
      (∀ r ∈ acc.1, ∀ x ∈ r.route, x ∈ acc.2) →
      (∀ r ∈ acc.1, ∀ x ∈ r.route, x ∈ jobs.map Job.id) →
      List.Pairwise (fun a b => ∀ x ∈ a.route, x ∉ b.route)
        (vs.foldl
          (fun acc v =>
            match optimizeVehicle oracle profile geometry jobs uniq durations acc.2 v with
            | (some rt, a) => (acc.1 ++ [rt], a)
            | (none, a) => (acc.1, a)) acc).1
      ∧ (∀ r ∈ (vs.foldl
            (fun acc v =>
              match optimizeVehicle oracle profile geometry jobs uniq durations acc.2 v with
              | (some rt, a) => (acc.1 ++ [rt], a)
              | (none, a) => (acc.1, a)) acc).1,
          ∀ x ∈ r.route, x ∈ (vs.foldl
            (fun acc v =>
              match optimizeVehicle oracle profile geometry jobs uniq durations acc.2 v with
              | (some rt, a) => (acc.1 ++ [rt], a)
              | (none, a) => (acc.1, a)) acc).2)
      ∧ (∀ r ∈ (vs.foldl
            (fun acc v =>
              match optimizeVehicle oracle profile geometry jobs uniq durations acc.2 v with
              | (some rt, a) => (acc.1 ++ [rt], a)
              | (none, a) => (acc.1, a)) acc).1,
          ∀ x ∈ r.route, x ∈ jobs.map Job.id) := by
  intro vs
  induction vs with
  | nil => intro acc h1 h2 h3; exact ⟨h1, h2, h3⟩
  | cons v rest ih =>
    intro acc h1 h2 h3
    simp only [List.foldl_cons]
    obtain ⟨hsub, hsome⟩ :=
      optimizeVehicle_route_spec oracle profile geometry jobs uniq durations acc.2 v
    cases hov : optimizeVehicle oracle profile geometry jobs uniq durations acc.2 v with
    | mk o A2 =>
      rw [hov] at hsub hsome
      cases o with
      | none =>
        dsimp only
        exact ih (acc.1, A2) h1 (fun r hr x hx => hsub (h2 r hr x hx)) h3
      | some rt =>
        dsimp only
        apply ih (acc.1 ++ [rt], A2)
        · rw [List.pairwise_append]
          refine ⟨h1, by simp, ?_⟩
          intro a ha b hb x hxa
          have hb2 : b = rt := by simpa using hb
          rw [hb2]
          exact fun hxb => (hsome rt rfl x hxb).1 (h2 a ha x hxa)
        · intro r hr x hx
          rcases List.mem_append.mp hr with hr1 | hr2
          · exact hsub (h2 r hr1 x hx)
          · have hr3 : r = rt := by simpa using hr2
            rw [hr3] at hx
            exact (hsome rt rfl x hx).2.2
        · intro r hr x hx
          rcases List.mem_append.mp hr with hr1 | hr2
          · exact h3 r hr1 x hx
          · have hr3 : r = rt := by simpa using hr2
            rw [hr3] at hx
            exact (hsome rt rfl x hx).2.1

/-- Routes branch of `process_request`, exposed. -/
lemma process_request_routes (oracle : Oracle) (req : RoutingRequest) :
    (process_request oracle req).routes
      = if hasPredefinedRoutes req then
          process_predefined_routes oracle req.routing_profile
            ((req.options.bind RoutingOptions.geometry).getD false) req
        else
          optimize_routes oracle req req.routing_profile
            ((req.options.bind RoutingOptions.geometry).getD false) := rfl

/-- Unassigned list of `process_request`, exposed. -/
lemma process_request_unassigned (oracle : Oracle) (req : RoutingRequest) :
    (process_request oracle req).unassigned
      = (req.jobs.filter (fun j =>
          decide (j.id ∉ assignedOfRoutes (process_request oracle req).routes))).map Job.id := rfl

/-- The greedy pass produces pairwise-disjoint routes whose ids are request
job ids. -/
lemma optimize_routes_invariant (oracle : Oracle) (req : RoutingRequest)
    (profile : Option String) (geometry : Bool) :
    List.Pairwise (fun a b => ∀ x ∈ a.route, x ∉ b.route)
        (optimize_routes oracle req profile geometry)
    ∧ ∀ r ∈ optimize_routes oracle req profile geometry, ∀ x ∈ r.route,
        x ∈ req.jobs.map Job.id := by
  have hinv := optimize_fold_invariant oracle profile geometry req.jobs
    (uniqueLocations (allLocations req))
    ((oracle.table profile (uniqueLocations (allLocations req))).durations)
    req.vehicles ([], ∅) (by simp) (by simp) (by simp)
  exact ⟨hinv.1, hinv.2.2⟩

/-- C1 (amended): on requests routed by the Greedy Assigner (no vehicle with
predefined steps) the produced routes' job-id sets are pairwise disjoint,
disjoint from the unassigned list, their union with the unassigned list is
exactly the request's job-id set, and the unassigned list is a subsequence of
the request's job ids (original order). -/
theorem C1_partition (oracle : Oracle) (req : RoutingRequest)
    (h : hasPredefinedRoutes req = false) :
    List.Pairwise (fun a b => ∀ x ∈ a.route, x ∉ b.route) (process_request oracle req).routes
    ∧ assignedOfRoutes (process_request oracle req).routes
        ∪ (process_request oracle req).unassigned.toFinset
      = (req.jobs.map Job.id).toFinset
    ∧ (∀ r ∈ (process_request oracle req).routes,
        ∀ x ∈ r.route, x ∉ (process_request oracle req).unassigned)
    ∧ (process_request oracle req).unassigned.Sublist (req.jobs.map Job.id) := by
  have hroutes : (process_request oracle req).routes
      = optimize_routes oracle req req.routing_profile
          ((req.options.bind RoutingOptions.geometry).getD false) := by
    rw [process_request_routes, h]
    simp
  obtain ⟨hpair, hids⟩ := optimize_routes_invariant oracle req req.routing_profile
    ((req.options.bind RoutingOptions.geometry).getD false)
  have hids2 : ∀ r ∈ (process_request oracle req).routes, ∀ x ∈ r.route,
      x ∈ req.jobs.map Job.id := by
    rw [hroutes]; exact hids
  have hun := process_request_unassigned oracle req
  refine ⟨by rw [hroutes]; exact hpair, ?_, ?_, ?_⟩
  · ext x
    simp only [Finset.mem_union, List.mem_toFinset]
    constructor
    · rintro (hx | hx)
      · obtain ⟨r, hr, hxr⟩ := (assignedOfRoutes_mem _ x).mp hx
        exact hids2 r hr x hxr
      · rw [hun] at hx
        obtain ⟨j, hj, rfl⟩ := List.mem_map.mp hx
        exact List.mem_map.mpr ⟨j, (List.mem_filter.mp hj).1, rfl⟩
    · intro hx
      obtain ⟨j, hj, rfl⟩ := List.mem_map.mp hx
      by_cases hA : j.id ∈ assignedOfRoutes (process_request oracle req).routes
      · exact Or.inl hA
      · refine Or.inr ?_
        rw [hun]
        exact List.mem_map.mpr ⟨j, List.mem_filter.mpr ⟨hj, by simpa using hA⟩, rfl⟩
  · intro r hr x hx hxu
    have hxA : x ∈ assignedOfRoutes (process_request oracle req).routes :=
      (assignedOfRoutes_mem _ x).mpr ⟨r, hr, hx⟩
    rw [hun] at hxu
    obtain ⟨j, hj, hjx⟩ := List.mem_map.mp hxu
    have := (List.mem_filter.mp hj).2
    rw [hjx] at this
    simp at this
    exact this hxA
  · rw [hun]
    exact (List.filter_sublist _).map Job.id

/-- Concrete oracle for the C1 counterexample and witness requests. -/
def C1oracle : Oracle :=
  ⟨fun _ _ _ => ⟨[⟨10, 20, none, [⟨1, 1⟩, ⟨1, 1⟩]⟩]⟩, fun _ _ => ⟨[[0, 0], [0, 0]], none⟩⟩

/-- Predefined-route request in which two vehicles both list job 1. -/
def C1cexReq : RoutingRequest :=
  ⟨[⟨0, (0, 0), (1, 1), [], none, some [RouteStep.job 1 none none none none], none⟩,
    ⟨5, (0, 0), (1, 1), [], none, some [RouteStep.job 1 none none none none], none⟩],
    [⟨1, (2, 2), 0, none, none, none, none, none⟩], none, none⟩

/-- C1 counterexample: on the predefined path two vehicles whose steps both
name job 1 produce two routes both containing job 1, so the routes' job-id
sets are not pairwise disjoint. -/
theorem C1_counterexample :
    ¬ List.Pairwise (fun a b => ∀ x ∈ a.route, x ∉ b.route)
        (process_request C1oracle C1cexReq).routes := by
  decide

/-- Greedy request (no predefined steps) for the C1 witness. -/
def C1witReq : RoutingRequest :=
  ⟨[⟨0, (0, 0), (1, 1), [], none, none, none⟩],
    [⟨1, (2, 2), 0, none, none, none, none, none⟩], none, none⟩

/-- C1 witness: the amended partition invariant on a concrete greedy request. -/
theorem C1_witness :
    List.Pairwise (fun a b => ∀ x ∈ a.route, x ∉ b.route)
        (process_request C1oracle C1witReq).routes
    ∧ assignedOfRoutes (process_request C1oracle C1witReq).routes
        ∪ (process_request C1oracle C1witReq).unassigned.toFinset
      = (C1witReq.jobs.map Job.id).toFinset
    ∧ (∀ r ∈ (process_request C1oracle C1witReq).routes,
        ∀ x ∈ r.route, x ∉ (process_request C1oracle C1witReq).unassigned)
    ∧ (process_request C1oracle C1witReq).unassigned.Sublist (C1witReq.jobs.map Job.id) :=
  C1_partition C1oracle C1witReq (by decide)

/-- Erase the pickup field of a job (the one field C10 lets vary). -/
def stripPickup (j : Job) : Job := { j with pickup := none }

/-- Projection facts about `stripPickup` (all definitional). -/
lemma stripPickup_id (j : Job) : (stripPickup j).id = j.id := rfl

/-- Location is unchanged by `stripPickup`. -/
lemma stripPickup_location (j : Job) : (stripPickup j).location = j.location := rfl

/-- A request with all pickups erased. -/
def stripReq (req : RoutingRequest) : RoutingRequest :=
  { req with jobs := req.jobs.map stripPickup }

/-- Vehicles are unchanged by `stripReq`. -/
lemma stripReq_vehicles (req : RoutingRequest) : (stripReq req).vehicles = req.vehicles := rfl

/-- Jobs of `stripReq` are the stripped jobs. -/
lemma stripReq_jobs (req : RoutingRequest) :
    (stripReq req).jobs = req.jobs.map stripPickup := rfl

/-- Profile is unchanged by `stripReq`. -/
lemma stripReq_profile (req : RoutingRequest) :
    (stripReq req).routing_profile = req.routing_profile := rfl

/-- Options are unchanged by `stripReq`. -/
lemma stripReq_options (req : RoutingRequest) : (stripReq req).options = req.options := rfl

/-- The branch test ignores jobs. -/
lemma hasPredefinedRoutes_strip (req : RoutingRequest) :
    hasPredefinedRoutes (stripReq req) = hasPredefinedRoutes req := rfl

/-- Candidate evaluation reads no pickup field. -/
lemma candidateEval_strip (ctx : GreedyCtx) (A : Finset ℕ) (ci : ℕ) (ct : ℤ)
    (cap : List ℤ) (j : Job) :
    candidateEval ctx A ci ct cap (stripPickup j) = candidateEval ctx A ci ct cap j := rfl

/-- The best-so-far update commutes with stripping the candidate jobs. -/
lemma betterCand_strip (best : Option (Job × ℚ × ℤ × ℤ)) (j : Job) (c : ℚ × ℤ × ℤ) :
    betterCand (best.map (fun c2 => (stripPickup c2.1, c2.2))) (stripPickup j) c
      = (betterCand best j c).map (fun c2 => (stripPickup c2.1, c2.2)) := by
  cases best with
  | none => rfl
  | some b =>
    obtain ⟨bj, bc⟩ := b
    simp only [Option.map_some, betterCand]
    by_cases h : c.1 < bc.1
    · simp [h]
    · simp [h]

/-- The selection fold step commutes with stripping. -/
lemma selectStep_strip (ctx : GreedyCtx) (A : Finset ℕ) (ci : ℕ) (ct : ℤ) (cap : List ℤ)
    (acc : Option (Job × ℚ × ℤ × ℤ)) (j : Job) :
    selectStep ctx A ci ct cap (acc.map (fun c2 => (stripPickup c2.1, c2.2))) (stripPickup j)
      = (selectStep ctx A ci ct cap acc j).map (fun c2 => (stripPickup c2.1, c2.2)) := by
  unfold selectStep
  rw [candidateEval_strip]
  cases candidateEval ctx A ci ct cap j with
  | none => rfl
  | some c => exact betterCand_strip acc j c

/-- Selecting over stripped jobs returns the stripped winner. -/
lemma selectBest_strip (ctx : GreedyCtx) (A : Finset ℕ) (ci : ℕ) (ct : ℤ) (cap : List ℤ)
    (jobs : List Job) :
    selectBest ctx A ci ct cap (jobs.map stripPickup)
      = (selectBest ctx A ci ct cap jobs).map (fun c2 => (stripPickup c2.1, c2.2)) := by
  rw [selectBest_eq_foldl, selectBest_eq_foldl]
  have haux : ∀ (l : List Job) (acc : Option (Job × ℚ × ℤ × ℤ)),
      (l.map stripPickup).foldl (selectStep ctx A ci ct cap)
          (acc.map (fun c2 => (stripPickup c2.1, c2.2)))
        = (l.foldl (selectStep ctx A ci ct cap) acc).map (fun c2 => (stripPickup c2.1, c2.2)) := by
    intro l
    induction l with
    | nil => intro acc; rfl
    | cons j rest ih =>
      intro acc
      simp only [List.map_cons, List.foldl_cons]
      rw [selectStep_strip]
      exact ih _
  simpa using haux jobs none

/-- Committing a stripped job is committing the job. -/
lemma commitJob_strip (ctx : GreedyCtx) (st : VehState) (j : Job) (a d : ℤ) :
    commitJob ctx st (stripPickup j) a d = commitJob ctx st j a d := rfl

/-- The greedy loop ignores pickup fields entirely. -/
lemma greedyLoop_strip (ctx : GreedyCtx) (jobs : List Job) :
    ∀ (fuel : ℕ) (st : VehState) (A : Finset ℕ),
      greedyLoop ctx (jobs.map stripPickup) fuel st A = greedyLoop ctx jobs fuel st A := by
  intro fuel
  induction fuel with
  | zero => intro st A; rfl
  | succ n ih =>
    intro st A
    rw [greedyLoop, greedyLoop]
    simp only [List.length_map]
    split
    · rfl
    · rw [selectBest_strip]
      cases selectBest ctx A st.currentIdx st.currentTime st.capacity jobs with
      | none => rfl
      | some best =>
        obtain ⟨j, s, a, d⟩ := best
        show greedyLoop ctx (List.map stripPickup jobs) n
            (commitJob ctx st (stripPickup j) a d) (insert (stripPickup j).id A)
          = greedyLoop ctx jobs n (commitJob ctx st j a d) (insert j.id A)
        rw [commitJob_strip, stripPickup_id]
        exact ih _ _

/-- Linear job search ignores pickup fields. -/
lemma findJob_strip (jobs : List Job) (id : ℕ) :
    findJob (jobs.map stripPickup) id = (findJob jobs id).map stripPickup := by
  unfold findJob
  induction jobs with
  | nil => rfl
  | cons j rest ih =>
    by_cases h : j.id = id
    · rw [List.map_cons, List.find?_cons_of_pos _ (by simp [stripPickup_id, h]),
        List.find?_cons_of_pos _ (by simp [h])]
      rfl
    · rw [List.map_cons, List.find?_cons_of_neg _ (by simp [stripPickup_id, h]),
        List.find?_cons_of_neg _ (by simp [h])]
      exact ih

/-- The job map ignores pickup fields. -/
lemma jobMapGet_strip (jobs : List Job) (id : ℕ) :
    jobMapGet (jobs.map stripPickup) id = (jobMapGet jobs id).map stripPickup := by
  unfold jobMapGet
  have haux : ∀ (l : List Job) (acc : Option Job),
      (l.map stripPickup).foldl (fun acc j => if j.id = id then some j else acc)
          (acc.map stripPickup)
        = (l.foldl (fun acc j => if j.id = id then some j else acc) acc).map stripPickup := by
    intro l
    induction l with
    | nil => intro acc; rfl
    | cons j rest ih =>
      intro acc
      simp only [List.map_cons, List.foldl_cons, stripPickup_id]
      by_cases h : j.id = id
      · rw [if_pos h, if_pos h]
        exact ih (some j)
      · rw [if_neg h, if_neg h]
        exact ih acc
  simpa using haux jobs none

/-- Waypoints of the final greedy route call ignore pickup fields. -/
lemma greedyCoords_strip (v : Vehicle) (jobs : List Job) (routeJobs : List ℕ) :
    greedyCoords v (jobs.map stripPickup) routeJobs = greedyCoords v jobs routeJobs := by
  have hloc : ∀ id, ((findJob (jobs.map stripPickup) id).map Job.location).getD (0, 0)
      = ((findJob jobs id).map Job.location).getD (0, 0) := by
    intro id
    rw [findJob_strip]
    cases findJob jobs id <;> rfl
  simp only [greedyCoords, hloc]

/-- Route assembly ignores pickup fields. -/
lemma mkGreedyRoute_strip (v : Vehicle) (jobs : List Job) (st : VehState) (r : OsrmRoute) :
    mkGreedyRoute v (jobs.map stripPickup) st r = mkGreedyRoute v jobs st r := by
  have hloc : ∀ id, (findJob (jobs.map stripPickup) id).map Job.location
      = (findJob jobs id).map Job.location := by
    intro id; rw [findJob_strip]; cases findJob jobs id <;> rfl
  have hsrv : ∀ id, (findJob (jobs.map stripPickup) id).map Job.service
      = (findJob jobs id).map Job.service := by
    intro id; rw [findJob_strip]; cases findJob jobs id <;> rfl
  simp only [mkGreedyRoute, hloc, hsrv]

/-- One greedy vehicle ignores pickup fields. -/
lemma optimizeVehicle_strip (oracle : Oracle) (profile : Option String) (geometry : Bool)
    (jobs : List Job) (uniq : List Loc) (durations : List (List ℤ))
    (A : Finset ℕ) (v : Vehicle) :
    optimizeVehicle oracle profile geometry (jobs.map stripPickup) uniq durations A v
      = optimizeVehicle oracle profile geometry jobs uniq durations A v := by
  unfold optimizeVehicle
  simp only [List.length_map, greedyLoop_strip, greedyCoords_strip, mkGreedyRoute_strip]

/-- Job locations survive stripping. -/
lemma map_location_strip (jobs : List Job) :
    (jobs.map stripPickup).map Job.location = jobs.map Job.location := by
  induction jobs with
  | nil => rfl
  | cons j rest ih => simp [ih, stripPickup_location]

/-- The request's location list ignores pickup fields. -/
lemma allLocations_strip (req : RoutingRequest) :
    allLocations (stripReq req) = allLocations req := by
  unfold allLocations
  rw [stripReq_vehicles, stripReq_jobs, map_location_strip]

/-- The whole greedy pass ignores pickup fields. -/
lemma optimize_routes_strip (oracle : Oracle) (req : RoutingRequest)
    (profile : Option String) (geometry : Bool) :
    optimize_routes oracle (stripReq req) profile geometry
      = optimize_routes oracle req profile geometry := by
  unfold optimize_routes
  rw [allLocations_strip, stripReq_vehicles, stripReq_jobs]
  simp only [optimizeVehicle_strip]

/-- One predefined timing step ignores pickup fields. -/
lemma expandStep_strip (jobs : List Job) (legs : List OsrmLeg) :
    expandStep (jobs.map stripPickup) legs = expandStep jobs legs := by
  funext s p
  obtain ⟨t, arrs, deps⟩ := s
  obtain ⟨i, id⟩ := p
  simp only [expandStep, jobMapGet_strip]
  cases jobMapGet jobs id <;> rfl

/-- Expansion of one predefined vehicle ignores pickup fields. -/
lemma expandVehicle_strip (oracle : Oracle) (profile : Option String) (geometry : Bool)
    (jobs : List Job) (v : Vehicle) :
    expandVehicle oracle profile geometry (jobs.map stripPickup) v
      = expandVehicle oracle profile geometry jobs v := by
  unfold expandVehicle
  cases v.steps with
  | none => rfl
  | some steps =>
    have hloc : ∀ id, (jobMapGet (jobs.map stripPickup) id).map Job.location
        = (jobMapGet jobs id).map Job.location := by
      intro id; rw [jobMapGet_strip]; cases jobMapGet jobs id <;> rfl
    have hsrv : ∀ id, (jobMapGet (jobs.map stripPickup) id).map Job.service
        = (jobMapGet jobs id).map Job.service := by
      intro id; rw [jobMapGet_strip]; cases jobMapGet jobs id <;> rfl
    simp only [hloc, hsrv, expandStep_strip]

/-- The predefined pass ignores pickup fields. -/
lemma process_predefined_strip (oracle : Oracle) (profile : Option String)
    (geometry : Bool) (req : RoutingRequest) :
    process_predefined_routes oracle profile geometry (stripReq req)
      = process_predefined_routes oracle profile geometry req := by
  unfold process_predefined_routes
  rw [stripReq_vehicles, stripReq_jobs,
    funext (expandVehicle_strip oracle profile geometry req.jobs)]

/-- Violation counting ignores pickup fields. -/
lemma routeViolations_strip (jobs : List Job) (r : VehicleRoute) :
    routeViolations (jobs.map stripPickup) r = routeViolations jobs r := by
  unfold routeViolations
  congr 1
  apply List.filter_congr
  intro p _
  rw [jobMapGet_strip]
  cases jobMapGet jobs p.2 <;> rfl

/-- The unassigned computation ignores pickup fields. -/
lemma filter_unassigned_strip (jobs : List Job) (A : Finset ℕ) :
    ((jobs.map stripPickup).filter (fun j => decide (j.id ∉ A))).map Job.id
      = (jobs.filter (fun j => decide (j.id ∉ A))).map Job.id := by
  induction jobs with
  | nil => rfl
  | cons j rest ih =>
    simp only [List.map_cons, List.filter_cons, stripPickup_id]
    by_cases h : j.id ∈ A
    · simpa [h] using ih
    · simpa [h, stripPickup_id] using ih

/-- The whole request pipeline ignores pickup fields. -/
lemma process_request_strip (oracle : Oracle) (req : RoutingRequest) :
    process_request oracle (stripReq req) = process_request oracle req := by
  unfold process_request
  dsimp only
  rw [stripReq_options, stripReq_profile, hasPredefinedRoutes_strip,
    process_predefined_strip, optimize_routes_strip, stripReq_jobs]
  simp only [routeViolations_strip, filter_unassigned_strip]

/-- C10 (confirmed): two requests identical except for the jobs' pickup
vectors, handled against the same oracle, yield identical responses — routes,
unassigned lists, summaries and geometry — because no part of the core reads
the pickup field. -/
theorem C10_pickup_noninterference (oracle : Oracle) (req1 req2 : RoutingRequest)
    (hv : req1.vehicles = req2.vehicles)
    (hp : req1.routing_profile = req2.routing_profile)
    (ho : req1.options = req2.options)
    (hj : req1.jobs.map stripPickup = req2.jobs.map stripPickup) :
    process_request oracle req1 = process_request oracle req2 := by
  have h1 : stripReq req1 = stripReq req2 := by
    unfold stripReq
    rw [hv, hp, ho, hj]
  rw [← process_request_strip oracle req1, h1, process_request_strip oracle req2]

/-- Concrete oracle for the C10 witness. -/
def C10oracle : Oracle :=
  ⟨fun _ _ _ => ⟨[⟨10, 20, none, [⟨1, 1⟩, ⟨1, 1⟩]⟩]⟩, fun _ _ => ⟨[[0, 0], [0, 0]], none⟩⟩

/-- Request whose single job carries pickup [4]. -/
def C10req1 : RoutingRequest :=
  ⟨[⟨0, (0, 0), (1, 1), [], none, none, none⟩],
    [⟨1, (2, 2), 0, none, some [4], none, none, none⟩], none, none⟩

/-- Same request with the pickup removed. -/
def C10req2 : RoutingRequest :=
  ⟨[⟨0, (0, 0), (1, 1), [], none, none, none⟩],
    [⟨1, (2, 2), 0, none, none, none, none, none⟩], none, none⟩

/-- C10 witness: the two concrete requests differing only in pickup produce
identical responses. -/
theorem C10_witness : process_request C10oracle C10req1 = process_request C10oracle C10req2 :=
  C10_pickup_noninterference C10oracle C10req1 C10req2 rfl rfl rfl (by decide)
